import Mathlib

/-!
Shallow embedding of the core of `cadence-crater` (files
`src/cadence_crater/toml.rs`, `src/cadence_crater/vcs.rs`,
`src/cadence_crater/types.rs`) and proofs about its manifest-patching,
atomic-write and repository-staging logic.

TOML values (`toml::value::Value`) are modelled as a closed variant of
strings, tables and arrays; a `toml::value::Map<String, Value>` is modelled
as an association list with key-based lookup and replace-in-place insertion
(the Rust map is a `BTreeMap`; its key ordering is part of the formatting
normalisation performed by the serializer and is not observable through the
key-based accessors the program uses).
-/

namespace CadenceCrater

/-- `toml::value::Value`, restricted to the variants the program touches
(strings, tables, arrays). -/
inductive Value where
  | str (s : String)
  | table (t : List (String × Value))
  | arr (xs : List Value)

/-- `toml::value::Table`: a map from strings to TOML values. -/
abbrev TomlTable := List (String × Value)

/-- `Map::get` / `Map::get_mut`: look a key up. -/
def tget (t : TomlTable) (k : String) : Option Value :=
  match t with
  | [] => none
  | (k2, v) :: rest => if k2 = k then some v else tget rest k

/-- `Map::insert`: replace the value at a key (in place), or add the key if
absent. -/
def tinsert (t : TomlTable) (k : String) (v : Value) : TomlTable :=
  match t with
  | [] => [(k, v)]
  | (k2, v2) :: rest => if k2 = k then (k2, v) :: rest else (k2, v2) :: tinsert rest k v

/-- `Value::as_table` / `Value::as_table_mut`. -/
def as_table (v : Value) : Option TomlTable :=
  match v with
  | .table t => some t
  | _ => none

/-- `Value::as_str`. -/
def as_str (v : Value) : Option String :=
  match v with
  | .str s => some s
  | _ => none

/-- `override_source` (toml.rs:136-145): insert a brand-new
`patch = { crates-io = { cadence = { path = <path> } } }` table built by the
`toml_map!` macro, replacing whatever was at the key `patch`. -/
def override_source (t : TomlTable) (path : String) : TomlTable :=
  tinsert t "patch"
    (.table [("crates-io", .table [("cadence", .table [("path", .str path)])])])

/-- `override_version` (toml.rs:148-154): if the document holds a
`dependencies` table, set its `cadence` key to the version string and report
whether a previous entry was replaced; otherwise do nothing and report
`false`. -/
def override_version (t : TomlTable) (version : String) : TomlTable × Bool :=
  match tget t "dependencies" with
  | some (.table deps) =>
      (tinsert t "dependencies" (.table (tinsert deps "cadence" (.str version))),
       (tget deps "cadence").isSome)
  | _ => (t, false)

/-- Inserting at a key then reading that key back gives the inserted value. -/
theorem tget_tinsert_self (t : TomlTable) (k : String) (v : Value) :
    tget (tinsert t k v) k = some v := by
  induction t with
  | nil => simp [tinsert, tget]
  | cons hd rest ih =>
      obtain ⟨k2, v2⟩ := hd
      by_cases h : k2 = k
      · simp [tinsert, tget, h]
      · simp [tinsert, tget, h, ih]

/-- Inserting at a key leaves every other key unchanged. -/
theorem tget_tinsert_other (t : TomlTable) (k k2 : String) (v : Value)
    (h : k2 ≠ k) : tget (tinsert t k v) k2 = tget t k2 := by
  have h5 : k ≠ k2 := Ne.symm h
  induction t with
  | nil => simp [tinsert, tget, h5]
  | cons hd rest ih =>
      obtain ⟨k3, v3⟩ := hd
      by_cases h3 : k3 = k
      · subst h3
        simp [tinsert, tget, h5]
      · by_cases h4 : k3 = k2 <;> simp [tinsert, tget, h3, h4, h, ih]

/-- Inserting at a key twice keeps only the second value. -/
theorem tinsert_tinsert (t : TomlTable) (k : String) (v1 v2 : Value) :
    tinsert (tinsert t k v1) k v2 = tinsert t k v2 := by
  induction t with
  | nil => simp [tinsert]
  | cons hd rest ih =>
      obtain ⟨k2, v2b⟩ := hd
      by_cases h : k2 = k <;> simp [tinsert, h, ih]

/-- Re-inserting the same value at the same key changes nothing further. -/
theorem tinsert_tinsert_self (t : TomlTable) (k : String) (v : Value) :
    tinsert (tinsert t k v) k v = tinsert t k v :=
  tinsert_tinsert t k v v

mutual
/-- `CraterError` (types.rs:15-18): a context message plus an optional boxed
underlying cause, retrievable via `Error::source`. -/
inductive CraterError where
  | mk (msg : String) (cause : Option Cause) : CraterError
/-- The lower-level errors the program wraps: `std::io::Error`,
`toml::de::Error`, `toml::ser::Error`, `git2::Error` (with its
"already exists" code distinguished), or another `CraterError`. -/
inductive Cause where
  | ioError (s : String) : Cause
  | parseError (s : String) : Cause
  | serializeError (s : String) : Cause
  | gitError (codeIsAlreadyExists : Bool) (s : String) : Cause
  | crater (e : CraterError) : Cause
end

/-- The context message of a `CraterError`. -/
def CraterError.msg : CraterError → String
  | .mk m _ => m

/-- `Error::source` for `CraterError` (types.rs:49-56): the chained cause,
if any. -/
def CraterError.source : CraterError → Option Cause
  | .mk _ c => c

/-- `CraterError::new` (types.rs:21-26): message only, no cause. -/
def CraterError.new (msg : String) : CraterError := .mk msg none

/-- `CraterError::new_err` (types.rs:28-36): message plus boxed cause. -/
def CraterError.new_err (msg : String) (cause : Cause) : CraterError :=
  .mk msg (some cause)

/-- A filesystem path, split as the directory holding the file
(`Path::parent`) and the file name. -/
structure FPath where
  dir : String
  file : String
deriving DecidableEq

/-- The `{:?}` debug rendering of a path, as interpolated into the error
messages. -/
def fpath_repr (p : FPath) : String := "\"" ++ p.dir ++ "/" ++ p.file ++ "\""

/-- What a file on disk holds, at the granularity the patcher observes
through `load_cargo_toml`: either text that parses as a TOML document (the
`toml` crate's parser always yields a top-level table for a valid document),
or text that is not valid TOML. An absent entry models an unreadable file. -/
inductive Content where
  | toml (t : TomlTable)
  | invalid

/-- Filesystem state: the readable files with their contents, plus the set
of paths on which the write/flush/sync/rename step fails with an I/O
error. -/
structure DocFS where
  files : List (FPath × Content)
  bad_w : List FPath

/-- Look up a file's content. -/
def fget (fs : List (FPath × Content)) (p : FPath) : Option Content :=
  match fs with
  | [] => none
  | (p2, c) :: rest => if p2 = p then some c else fget rest p

/-- Set a file's content (replace in place, or create). -/
def fset (fs : List (FPath × Content)) (p : FPath) (c : Content) :
    List (FPath × Content) :=
  match fs with
  | [] => [(p, c)]
  | (p2, c2) :: rest => if p2 = p then (p2, c) :: rest else (p2, c2) :: fset rest p c

/-- The content at a path in a filesystem state. -/
def docAt (fs : DocFS) (p : FPath) : Option Content := fget fs.files p

theorem fget_fset_self (fs : List (FPath × Content)) (p : FPath) (c : Content) :
    fget (fset fs p c) p = some c := by
  induction fs with
  | nil => simp [fset, fget]
  | cons hd rest ih =>
      obtain ⟨p2, c2⟩ := hd
      by_cases h : p2 = p
      · simp [fset, fget, h]
      · simp [fset, fget, h, ih]

theorem fget_fset_other (fs : List (FPath × Content)) (p q : FPath) (c : Content)
    (h : q ≠ p) : fget (fset fs p c) q = fget fs q := by
  have h5 : p ≠ q := Ne.symm h
  induction fs with
  | nil => simp [fset, fget, h5]
  | cons hd rest ih =>
      obtain ⟨p2, c2⟩ := hd
      by_cases h3 : p2 = p
      · subst h3
        simp [fset, fget, h5]
      · by_cases h4 : p2 = q <;> simp [fset, fget, h3, h4, h, ih]

/-- `load_cargo_toml` (toml.rs:194-211): read the file (wrapping a read
failure with context and its I/O cause), then parse it (wrapping a parse
failure with context and its parse cause). A valid document's top-level
value is a table. -/
def load_cargo_toml (fs : DocFS) (p : FPath) : Except CraterError Value :=
  match fget fs.files p with
  | none =>
      .error (.new_err ("unable to read TOML file " ++ fpath_repr p)
        (.ioError "No such file or directory"))
  | some .invalid =>
      .error (.new_err ("unable to parse TOML file " ++ fpath_repr p)
        (.parseError "expected an equals, found an identifier"))
  | some (.toml t) => .ok (.table t)

/-- `write_cargo_toml` (toml.rs:157-191) at the document level: serialize
the value (`toml::to_string` fails on a non-table top-level value, wrapped
with context and its serialize cause), then write-and-rename (an I/O failure
anywhere in the closure is wrapped with context and its I/O cause and leaves
the document at the path unchanged). The byte-level inner steps of the
closure are modelled separately below as `write_and_rename`. -/
def write_cargo_toml (fs : DocFS) (p : FPath) (v : Value) : Except CraterError DocFS :=
  match v with
  | .table t =>
      if p ∈ fs.bad_w then
        .error (.new_err ("unable to write to TOML file " ++ fpath_repr p)
          (.ioError "Permission denied"))
      else .ok { fs with files := fset fs.files p (.toml t) }
  | _ =>
      .error (.new_err ("unable to serialize TOML for writing to " ++ fpath_repr p)
        (.serializeError "unsupported type"))

/-- The result of running `LocalOverride::patch`: `Ok` with the final disk
state, `Err` with the error and the disk state at the moment the error
propagated, or a panic (from the `.unwrap()` calls). -/
inductive Outcome where
  | ok (fs : DocFS)
  | err (e : CraterError) (fs : DocFS)
  | panik

/-- `LocalOverride` (toml.rs:89-109): the workspace root Cargo.toml and the
Cargo.toml of each sub-crate to be patched. -/
structure LocalOverride where
  root : FPath
  crates : List FPath

/-- The `for crate_path in self.crates` loop of `LocalOverride::patch`
(toml.rs:122-129): load each child, `as_table_mut().unwrap()` it, apply the
version override (its `bool` result is discarded), and write it back;
`?` aborts on the first load or write failure. -/
def patchChildren (version : String) (crates : List FPath) (fs : DocFS) : Outcome :=
  match crates with
  | [] => .ok fs
  | c :: rest =>
      match load_cargo_toml fs c with
      | .error e => .err e fs
      | .ok v =>
          match as_table v with
          | none => .panik
          | some t =>
              match write_cargo_toml fs c (.table (override_version t version).1) with
              | .error e => .err e fs
              | .ok fs2 => patchChildren version rest fs2

/-- `LocalOverride::patch` (toml.rs:111-132): load the root, apply the
source override to it in memory, then either apply the version override to
the root itself (no sub-crates) or patch each sub-crate in order; the root
document is written back last. -/
def LocalOverride.patch (lo : LocalOverride) (version lpath : String)
    (fs : DocFS) : Outcome :=
  match load_cargo_toml fs lo.root with
  | .error e => .err e fs
  | .ok v =>
      match as_table v with
      | none => .panik
      | some rt0 =>
          let rt := override_source rt0 lpath
          if lo.crates.isEmpty then
            match write_cargo_toml fs lo.root (.table (override_version rt version).1) with
            | .error e => .err e fs
            | .ok fs2 => .ok fs2
          else
            match patchChildren version lo.crates fs with
            | .ok fs2 =>
                match write_cargo_toml fs2 lo.root (.table rt) with
                | .error e => .err e fs2
                | .ok fs3 => .ok fs3
            | .err e fs2 => .err e fs2
            | .panik => .panik

/-- A child manifest the patch loop can process: its file holds a parsed
document with a `dependencies` table, and writing it back succeeds. -/
def okChild (fs : DocFS) (c : FPath) : Prop :=
  (∃ t deps, docAt fs c = some (.toml t) ∧ tget t "dependencies" = some (.table deps))
    ∧ c ∉ fs.bad_w

/-- The manifest at a path declares `dependencies.cadence` equal to the
given version string. -/
def hasCadence (fs : DocFS) (c : FPath) (version : String) : Prop :=
  ∃ t deps, docAt fs c = some (.toml t) ∧ tget t "dependencies" = some (.table deps)
    ∧ tget deps "cadence" = some (.str version)

/-- Stepping the child loop through a block of processable children: the
loop reaches the remaining children in a state where every processed child
has been written with `dependencies.cadence = version` and no other path was
touched. -/
theorem patchChildren_split (version : String) (pre rest : List FPath) :
    ∀ fs : DocFS, (∀ c ∈ pre, okChild fs c) →
    ∃ fs2, patchChildren version (pre ++ rest) fs = patchChildren version rest fs2 ∧
      fs2.bad_w = fs.bad_w ∧
      (∀ p, p ∉ pre → docAt fs2 p = docAt fs p) ∧
      (∀ c ∈ pre, hasCadence fs2 c version) := by
  induction pre with
  | nil =>
      intro fs _
      exact ⟨fs, rfl, rfl, fun p _ => rfl, fun c hc => absurd hc (List.not_mem_nil c)⟩
  | cons c pre ih =>
      intro fs hok
      obtain ⟨⟨t, deps, hdoc, hdeps⟩, hw⟩ := hok c (List.mem_cons_self c pre)
      have hdoc2 : fget fs.files c = some (.toml t) := hdoc
      have hload : load_cargo_toml fs c = .ok (.table t) := by
        simp [load_cargo_toml, hdoc2]
      have hov : (override_version t version).1 =
          tinsert t "dependencies" (.table (tinsert deps "cadence" (.str version))) := by
        simp [override_version, hdeps]
      have hwrite : write_cargo_toml fs c (.table (override_version t version).1) =
          .ok ⟨fset fs.files c
                (.toml (tinsert t "dependencies"
                  (.table (tinsert deps "cadence" (.str version))))), fs.bad_w⟩ := by
        simp [write_cargo_toml, hov, hw]
      have hstep : patchChildren version ((c :: pre) ++ rest) fs =
          patchChildren version (pre ++ rest)
            ⟨fset fs.files c
              (.toml (tinsert t "dependencies"
                (.table (tinsert deps "cadence" (.str version))))), fs.bad_w⟩ := by
        simp [patchChildren, hload, as_table, hwrite]
      set fs1 : DocFS :=
        ⟨fset fs.files c
          (.toml (tinsert t "dependencies"
            (.table (tinsert deps "cadence" (.str version))))), fs.bad_w⟩ with hfs1
      have hok1 : ∀ c2 ∈ pre, okChild fs1 c2 := by
        intro c2 hc2
        by_cases he : c2 = c
        · subst he
          refine ⟨⟨tinsert t "dependencies" (.table (tinsert deps "cadence" (.str version))),
            tinsert deps "cadence" (.str version), ?_, ?_⟩, hw⟩
          · show fget fs1.files c2 = _
            rw [hfs1]
            exact fget_fset_self fs.files c2 _
          · exact tget_tinsert_self t "dependencies" _
        · obtain ⟨⟨t2, d2, hdoc3, hdeps3⟩, hw3⟩ := hok c2 (List.mem_cons_of_mem c hc2)
          refine ⟨⟨t2, d2, ?_, hdeps3⟩, hw3⟩
          show fget fs1.files c2 = some (.toml t2)
          rw [hfs1]
          rw [fget_fset_other fs.files c c2 _ he]
          exact hdoc3
      obtain ⟨fs2, heq, hbw, hpres, hcad⟩ := ih fs1 hok1
      refine ⟨fs2, hstep.trans heq, hbw, ?_, ?_⟩
      · intro p hp
        have hp1 : p ∉ pre := fun h => hp (List.mem_cons_of_mem c h)
        have hp2 : p ≠ c := fun h => hp (h ▸ List.mem_cons_self c pre)
        rw [hpres p hp1]
        show fget fs1.files p = fget fs.files p
        rw [hfs1]
        exact fget_fset_other fs.files c p _ hp2
      · intro c2 hc2
        rcases List.mem_cons.mp hc2 with he | hm
        · subst he
          by_cases hmem : c2 ∈ pre
          · exact hcad c2 hmem
          · refine ⟨tinsert t "dependencies" (.table (tinsert deps "cadence" (.str version))),
              tinsert deps "cadence" (.str version), ?_, ?_, ?_⟩
            · rw [hpres c2 hmem]
              show fget fs1.files c2 = _
              rw [hfs1]
              exact fget_fset_self fs.files c2 _
            · exact tget_tinsert_self t "dependencies" _
            · exact tget_tinsert_self deps "cadence" _
        · exact hcad c2 hm

/-- Running the child loop to completion over processable children. -/
theorem patchChildren_ok (version : String) (crates : List FPath) (fs : DocFS)
    (h : ∀ c ∈ crates, okChild fs c) :
    ∃ fs2, patchChildren version crates fs = .ok fs2 ∧
      fs2.bad_w = fs.bad_w ∧
      (∀ p, p ∉ crates → docAt fs2 p = docAt fs p) ∧
      (∀ c ∈ crates, hasCadence fs2 c version) := by
  obtain ⟨fs2, heq, hbw, hpres, hcad⟩ := patchChildren_split version crates [] fs h
  refine ⟨fs2, ?_, hbw, hpres, hcad⟩
  rw [List.append_nil] at heq
  rw [heq]
  simp [patchChildren]

/-- Navigate three nested table levels, as in `patch.crates-io.cadence`. -/
def tget3 (t : TomlTable) (k1 k2 k3 : String) : Option Value :=
  match tget t k1 with
  | some (.table t2) =>
      match tget t2 k2 with
      | some (.table t3) => tget t3 k3
      | _ => none
  | _ => none

/-- C7: applying the version-override mutation twice with the same version
string yields a document identical to applying it once. -/
theorem override_version_idempotent (t : TomlTable) (version : String) :
    (override_version (override_version t version).1 version).1 =
      (override_version t version).1 := by
  match h : tget t "dependencies" with
  | some (.table deps) =>
      simp only [override_version, h]
      rw [tget_tinsert_self]
      simp only
      rw [tinsert_tinsert_self, tinsert_tinsert_self]
  | none => simp [override_version, h]
  | some (.str s) => simp [override_version, h]
  | some (.arr xs) => simp [override_version, h]

/-- C1 counterexample: a document whose `patch.crates-io` table already
holds an entry for `other-crate` loses that entry when the source-override
mutation runs — `override_source` installs a brand-new `patch` table holding
only the `cadence` key, so the pre-existing sibling is not preserved. -/
theorem override_source_drops_sibling :
    tget3 [("patch", .table [("crates-io", .table
        [("other-crate", .table [("path", .str "/elsewhere")])])])]
      "patch" "crates-io" "other-crate"
      = some (.table [("path", .str "/elsewhere")])
    ∧ tget3 (override_source
        [("patch", .table [("crates-io", .table
          [("other-crate", .table [("path", .str "/elsewhere")])])])]
        "/local/cadence")
      "patch" "crates-io" "other-crate" = none := by
  exact ⟨rfl, rfl⟩

/-- C1 (amended): the source-override mutation replaces the document's
whole `patch` entry with a fresh table holding exactly
`crates-io.cadence.path = <local path>` (discarding any pre-existing
siblings under `patch.crates-io`), and leaves every top-level key other
than `patch` unchanged. -/
theorem override_source_spec (t : TomlTable) (lpath k : String)
    (hk : k ≠ "patch") :
    tget (override_source t lpath) "patch" =
      some (.table [("crates-io", .table
        [("cadence", .table [("path", .str lpath)])])])
    ∧ tget (override_source t lpath) k = tget t k := by
  exact ⟨tget_tinsert_self t "patch" _, tget_tinsert_other t "patch" k _ hk⟩

/-- Witness for C1 (amended) at a concrete document. -/
theorem override_source_spec_witness :
    ("dependencies" : String) ≠ "patch"
    ∧ (tget (override_source [("dependencies", .table [("cadence", .str "1.0")])]
          "/local/cadence") "patch" =
        some (.table [("crates-io", .table
          [("cadence", .table [("path", .str "/local/cadence")])])])
      ∧ tget (override_source [("dependencies", .table [("cadence", .str "1.0")])]
          "/local/cadence") "dependencies" =
        tget [("dependencies", .table [("cadence", .str "1.0")])] "dependencies") :=
  ⟨by decide,
   override_source_spec [("dependencies", .table [("cadence", .str "1.0")])]
     "/local/cadence" "dependencies" (by decide)⟩

/-- The value of key `k` inside the document stored at path `p`. -/
def docKey (fs : DocFS) (p : FPath) (k : String) : Option Value :=
  match docAt fs p with
  | some (.toml t) => tget t k
  | _ => none

/-- C2 counterexample: running `LocalOverride::patch` (no sub-crates) on a
manifest with no `dependencies` table does not fail at all — there is no
`MissingDependencySectionError` in the code, `override_version` silently
reports `false`, and the manifest file is still rewritten on disk (it gains
the `patch` table). -/
theorem patch_missing_deps_no_error :
    LocalOverride.patch ⟨⟨"/w", "Cargo.toml"⟩, []⟩ "2.0" "/local/cadence"
        ⟨[(⟨"/w", "Cargo.toml"⟩, .toml [("package", .table [("name", .str "demo")])])], []⟩
      = .ok ⟨[(⟨"/w", "Cargo.toml"⟩,
          .toml [("package", .table [("name", .str "demo")]),
                 ("patch", .table [("crates-io", .table
                    [("cadence", .table [("path", .str "/local/cadence")])])])])], []⟩
    ∧ docKey ⟨[(⟨"/w", "Cargo.toml"⟩,
          .toml [("package", .table [("name", .str "demo")])])], []⟩
        ⟨"/w", "Cargo.toml"⟩ "patch" = none
    ∧ docKey ⟨[(⟨"/w", "Cargo.toml"⟩,
          .toml [("package", .table [("name", .str "demo")]),
                 ("patch", .table [("crates-io", .table
                    [("cadence", .table [("path", .str "/local/cadence")])])])])], []⟩
        ⟨"/w", "Cargo.toml"⟩ "patch"
      = some (.table [("crates-io", .table
          [("cadence", .table [("path", .str "/local/cadence")])])]) := by
  refine ⟨?_, rfl, rfl⟩
  rfl

/-- C2 (amended): when the target document has no `dependencies` table the
version-override mutation silently leaves the document unchanged and
reports `false` (no error exists for this case), and `LocalOverride::patch`
still rewrites the manifest on disk with the source override; when a
`dependencies` table exists but lacks the `cadence` key, the brand-new key
is inserted. -/
theorem override_version_missing_section (t deps rt : TomlTable)
    (version lpath : String) (fs : DocFS) (root : FPath)
    (h1 : tget t "dependencies" = none)
    (h2 : tget deps "cadence" = none)
    (h3 : docAt fs root = some (.toml rt))
    (h4 : tget rt "dependencies" = none)
    (h5 : root ∉ fs.bad_w) :
    override_version t version = (t, false)
    ∧ override_version (tinsert t "dependencies" (.table deps)) version =
        (tinsert t "dependencies" (.table (tinsert deps "cadence" (.str version))), false)
    ∧ LocalOverride.patch ⟨root, []⟩ version lpath fs =
        .ok ⟨fset fs.files root (.toml (override_source rt lpath)), fs.bad_w⟩ := by
  refine ⟨by simp [override_version, h1], ?_, ?_⟩
  · rw [override_version, tget_tinsert_self]
    simp [h2, tinsert_tinsert]
  · have hload : load_cargo_toml fs root = .ok (.table rt) := by
      have h3b : fget fs.files root = some (.toml rt) := h3
      simp [load_cargo_toml, h3b]
    have hdeps : tget (override_source rt lpath) "dependencies" = none := by
      rw [override_source, tget_tinsert_other rt "patch" "dependencies" _ (by decide)]
      exact h4
    have hov : override_version (override_source rt lpath) version =
        (override_source rt lpath, false) := by
      simp [override_version, hdeps]
    simp [LocalOverride.patch, hload, as_table, hov, write_cargo_toml, h5]

/-- Witness for C2 (amended) at concrete documents and a concrete
filesystem. -/
theorem override_version_missing_section_witness :
    (tget [("package", .table [("name", .str "demo")])] "dependencies" = none
      ∧ tget [("serde", .str "1.0")] "cadence" = none
      ∧ docAt ⟨[(⟨"/w", "Cargo.toml"⟩,
            .toml [("package", .table [("name", .str "demo")])])], []⟩
          ⟨"/w", "Cargo.toml"⟩
          = some (.toml [("package", .table [("name", .str "demo")])])
      ∧ tget [("package", .table [("name", .str "demo")])] "dependencies" = none
      ∧ ⟨"/w", "Cargo.toml"⟩ ∉ (⟨[(⟨"/w", "Cargo.toml"⟩,
            .toml [("package", .table [("name", .str "demo")])])], []⟩ : DocFS).bad_w)
    ∧ (override_version [("package", .table [("name", .str "demo")])] "2.0"
        = ([("package", .table [("name", .str "demo")])], false)
      ∧ override_version (tinsert [("package", .table [("name", .str "demo")])]
          "dependencies" (.table [("serde", .str "1.0")])) "2.0" =
        (tinsert [("package", .table [("name", .str "demo")])] "dependencies"
          (.table (tinsert [("serde", .str "1.0")] "cadence" (.str "2.0"))), false)
      ∧ LocalOverride.patch ⟨⟨"/w", "Cargo.toml"⟩, []⟩ "2.0" "/local/cadence"
          ⟨[(⟨"/w", "Cargo.toml"⟩,
             .toml [("package", .table [("name", .str "demo")])])], []⟩ =
        .ok ⟨fset [(⟨"/w", "Cargo.toml"⟩,
             .toml [("package", .table [("name", .str "demo")])])]
            ⟨"/w", "Cargo.toml"⟩
            (.toml (override_source [("package", .table [("name", .str "demo")])]
              "/local/cadence")),
          ([] : List FPath)⟩) :=
  ⟨⟨rfl, rfl, rfl, rfl, by simp⟩,
   override_version_missing_section
     [("package", .table [("name", .str "demo")])] [("serde", .str "1.0")]
     [("package", .table [("name", .str "demo")])] "2.0" "/local/cadence"
     ⟨[(⟨"/w", "Cargo.toml"⟩, .toml [("package", .table [("name", .str "demo")])])], []⟩
     ⟨"/w", "Cargo.toml"⟩ rfl rfl rfl rfl (by simp)⟩

/-- A successful load always yields a top-level table (the `toml` parser
produces a table for every valid document). -/
theorem load_cargo_toml_table (fs : DocFS) (p : FPath) (v : Value)
    (h : load_cargo_toml fs p = .ok v) : ∃ t, v = .table t := by
  unfold load_cargo_toml at h
  match h2 : fget fs.files p with
  | none => rw [h2] at h; exact absurd h (by simp)
  | some .invalid => rw [h2] at h; exact absurd h (by simp)
  | some (.toml t) =>
      rw [h2] at h
      refine ⟨t, ?_⟩
      injection h with h3
      exact h3.symm

theorem patchChildren_ne_panik (version : String) :
    ∀ (crates : List FPath) (fs : DocFS), patchChildren version crates fs ≠ .panik := by
  intro crates
  induction crates with
  | nil => intro fs; simp [patchChildren]
  | cons c rest ih =>
      intro fs
      cases hl : load_cargo_toml fs c with
      | error e => simp [patchChildren, hl]
      | ok v =>
          obtain ⟨t, rfl⟩ := load_cargo_toml_table fs c v hl
          cases hw : write_cargo_toml fs c (.table (override_version t version).1) with
          | error e => simp [patchChildren, hl, as_table, hw]
          | ok fs2 =>
              simp only [patchChildren, hl, as_table, hw]
              exact ih fs2

/-- C10: `LocalOverride::patch` never reaches either `.unwrap()` panic —
every successfully loaded document is a top-level table, so for every
filesystem state the call returns a result or an error, never aborts. -/
theorem patch_never_panics (lo : LocalOverride) (version lpath : String)
    (fs : DocFS) : lo.patch version lpath fs ≠ .panik := by
  cases hl : load_cargo_toml fs lo.root with
  | error e => simp [LocalOverride.patch, hl]
  | ok v =>
      obtain ⟨rt, rfl⟩ := load_cargo_toml_table fs lo.root v hl
      by_cases hc : lo.crates.isEmpty
      · cases hw : write_cargo_toml fs lo.root
          (.table (override_version (override_source rt lpath) version).1) with
        | error e => simp [LocalOverride.patch, hl, as_table, hc, hw]
        | ok fs2 => simp [LocalOverride.patch, hl, as_table, hc, hw]
      · cases hpc : patchChildren version lo.crates fs with
        | ok fs2 =>
            cases hw : write_cargo_toml fs2 lo.root (.table (override_source rt lpath)) with
            | error e => simp [LocalOverride.patch, hl, as_table, hc, hpc, hw]
            | ok fs3 => simp [LocalOverride.patch, hl, as_table, hc, hpc, hw]
        | err e fs2 => simp [LocalOverride.patch, hl, as_table, hc, hpc]
        | panik => exact absurd hpc (patchChildren_ne_panik version lo.crates fs)

/-- C3 counterexample: with a non-empty child list, a child manifest that
declares no `dependencies` table does not receive the version entry —
`override_version` is a silent no-op on it, the child is rewritten
unchanged, and `patch` still succeeds. The claim's "each child manifest's
dependencies.cadence entry is set to version" fails on this input. -/
theorem patch_child_without_deps_not_set :
    LocalOverride.patch ⟨⟨"/w", "Cargo.toml"⟩, [⟨"/w/sub", "Cargo.toml"⟩]⟩
        "2.0" "/local/cadence"
        ⟨[(⟨"/w", "Cargo.toml"⟩, .toml [("dependencies", .table [("cadence", .str "1.0")])]),
          (⟨"/w/sub", "Cargo.toml"⟩, .toml [("package", .table [("name", .str "sub")])])], []⟩
      = .ok ⟨[(⟨"/w", "Cargo.toml"⟩,
            .toml [("dependencies", .table [("cadence", .str "1.0")]),
                   ("patch", .table [("crates-io", .table
                      [("cadence", .table [("path", .str "/local/cadence")])])])]),
          (⟨"/w/sub", "Cargo.toml"⟩, .toml [("package", .table [("name", .str "sub")])])], []⟩
    ∧ docKey ⟨[(⟨"/w", "Cargo.toml"⟩,
            .toml [("dependencies", .table [("cadence", .str "1.0")]),
                   ("patch", .table [("crates-io", .table
                      [("cadence", .table [("path", .str "/local/cadence")])])])]),
          (⟨"/w/sub", "Cargo.toml"⟩, .toml [("package", .table [("name", .str "sub")])])], []⟩
        ⟨"/w/sub", "Cargo.toml"⟩ "dependencies" = none := by
  exact ⟨rfl, rfl⟩

/-- C3 (amended): `LocalOverride::patch` always ends by writing the root
with the source-override entry `patch.crates-io.cadence.path = <path>`;
with a non-empty child list, every child that declares a `dependencies`
table gets `dependencies.cadence = <version>` while the root's own
`dependencies` entry is left unchanged; with an empty child list and a root
declaring a `dependencies` table, the root itself gets
`dependencies.cadence = <version>`. -/
theorem patch_spec (root : FPath) (crates : List FPath)
    (version lpath : String) (fs : DocFS) (rt : TomlTable)
    (hroot : docAt fs root = some (.toml rt))
    (hwr : root ∉ fs.bad_w) :
    (crates ≠ [] → root ∉ crates → (∀ c ∈ crates, okChild fs c) →
      ∃ fs3, LocalOverride.patch ⟨root, crates⟩ version lpath fs = .ok fs3
        ∧ docAt fs3 root = some (.toml (override_source rt lpath))
        ∧ tget (override_source rt lpath) "dependencies" = tget rt "dependencies"
        ∧ tget3 (override_source rt lpath) "patch" "crates-io" "cadence"
            = some (.table [("path", .str lpath)])
        ∧ (∀ c ∈ crates, hasCadence fs3 c version))
    ∧ (∀ deps, crates = [] → tget rt "dependencies" = some (.table deps) →
      ∃ fs2, LocalOverride.patch ⟨root, crates⟩ version lpath fs = .ok fs2
        ∧ hasCadence fs2 root version
        ∧ docKey fs2 root "patch" = some (.table [("crates-io", .table
            [("cadence", .table [("path", .str lpath)])])])) := by
  have hload : load_cargo_toml fs root = .ok (.table rt) := by
    have h3b : fget fs.files root = some (.toml rt) := hroot
    simp [load_cargo_toml, h3b]
  constructor
  · intro hne hnr hok
    have hempty : crates.isEmpty = false := by
      cases crates with
      | nil => exact absurd rfl hne
      | cons a l => rfl
    obtain ⟨fs2, hpc, hbw, hpres, hcad⟩ := patchChildren_ok version crates fs hok
    have hw2 : root ∉ fs2.bad_w := by rw [hbw]; exact hwr
    have hwrite : write_cargo_toml fs2 root (.table (override_source rt lpath)) =
        .ok ⟨fset fs2.files root (.toml (override_source rt lpath)), fs2.bad_w⟩ := by
      simp [write_cargo_toml, hw2]
    refine ⟨⟨fset fs2.files root (.toml (override_source rt lpath)), fs2.bad_w⟩,
      ?_, ?_, ?_, ?_, ?_⟩
    · simp [LocalOverride.patch, hload, as_table, hempty, hpc, hwrite]
    · exact fget_fset_self fs2.files root _
    · exact tget_tinsert_other rt "patch" "dependencies" _ (by decide)
    · rw [tget3, override_source, tget_tinsert_self]
      rfl
    · intro c hc
      have hcr : c ≠ root := fun h => hnr (h ▸ hc)
      obtain ⟨t2, d2, ha, hb, hc2⟩ := hcad c hc
      refine ⟨t2, d2, ?_, hb, hc2⟩
      show fget (fset fs2.files root (.toml (override_source rt lpath))) c = _
      rw [fget_fset_other fs2.files root c _ hcr]
      exact ha
  · intro deps hce hdeps
    subst hce
    have hdeps2 : tget (override_source rt lpath) "dependencies" = some (.table deps) := by
      rw [override_source, tget_tinsert_other rt "patch" "dependencies" _ (by decide)]
      exact hdeps
    have hov : (override_version (override_source rt lpath) version).1 =
        tinsert (override_source rt lpath) "dependencies"
          (.table (tinsert deps "cadence" (.str version))) := by
      simp [override_version, hdeps2]
    have hwrite : write_cargo_toml fs root
        (.table (override_version (override_source rt lpath) version).1) =
        .ok ⟨fset fs.files root (.toml (tinsert (override_source rt lpath) "dependencies"
          (.table (tinsert deps "cadence" (.str version))))), fs.bad_w⟩ := by
      simp [write_cargo_toml, hov, hwr]
    refine ⟨⟨fset fs.files root (.toml (tinsert (override_source rt lpath) "dependencies"
        (.table (tinsert deps "cadence" (.str version))))), fs.bad_w⟩, ?_, ?_, ?_⟩
    · simp [LocalOverride.patch, hload, as_table, hwrite]
    · refine ⟨tinsert (override_source rt lpath) "dependencies"
        (.table (tinsert deps "cadence" (.str version))),
        tinsert deps "cadence" (.str version), ?_, ?_, ?_⟩
      · exact fget_fset_self fs.files root _
      · exact tget_tinsert_self _ "dependencies" _
      · exact tget_tinsert_self deps "cadence" _
    · rw [docKey]
      show (match fget (fset fs.files root _) root with
        | some (.toml t) => tget t "patch" | _ => none) = _
      rw [fget_fset_self]
      show tget (tinsert (override_source rt lpath) "dependencies" _) "patch" = _
      rw [tget_tinsert_other _ "dependencies" "patch" _ (by decide)]
      exact tget_tinsert_self rt "patch" _

/-- Witness for C3 (amended): a root plus one child, both declaring a
`dependencies` table. -/
theorem patch_spec_witness :
    (docAt ⟨[(⟨"/w", "Cargo.toml"⟩, .toml [("dependencies", .table [("cadence", .str "1.0")])]),
        (⟨"/w/sub", "Cargo.toml"⟩, .toml [("dependencies", .table [("cadence", .str "1.0")])])], []⟩
        ⟨"/w", "Cargo.toml"⟩
        = some (.toml [("dependencies", .table [("cadence", .str "1.0")])])
      ∧ ⟨"/w", "Cargo.toml"⟩ ∉ (⟨[(⟨"/w", "Cargo.toml"⟩,
          .toml [("dependencies", .table [("cadence", .str "1.0")])]),
        (⟨"/w/sub", "Cargo.toml"⟩,
          .toml [("dependencies", .table [("cadence", .str "1.0")])])], []⟩ : DocFS).bad_w)
    ∧ (([⟨"/w/sub", "Cargo.toml"⟩] : List FPath) ≠ []
        → ⟨"/w", "Cargo.toml"⟩ ∉ ([⟨"/w/sub", "Cargo.toml"⟩] : List FPath)
        → (∀ c ∈ ([⟨"/w/sub", "Cargo.toml"⟩] : List FPath),
            okChild ⟨[(⟨"/w", "Cargo.toml"⟩,
              .toml [("dependencies", .table [("cadence", .str "1.0")])]),
              (⟨"/w/sub", "Cargo.toml"⟩,
              .toml [("dependencies", .table [("cadence", .str "1.0")])])], []⟩ c)
        → ∃ fs3, LocalOverride.patch ⟨⟨"/w", "Cargo.toml"⟩, [⟨"/w/sub", "Cargo.toml"⟩]⟩
            "2.0" "/local/cadence"
            ⟨[(⟨"/w", "Cargo.toml"⟩, .toml [("dependencies", .table [("cadence", .str "1.0")])]),
              (⟨"/w/sub", "Cargo.toml"⟩,
                .toml [("dependencies", .table [("cadence", .str "1.0")])])], []⟩ = .ok fs3
          ∧ docAt fs3 ⟨"/w", "Cargo.toml"⟩ = some (.toml (override_source
              [("dependencies", .table [("cadence", .str "1.0")])] "/local/cadence"))
          ∧ tget (override_source [("dependencies", .table [("cadence", .str "1.0")])]
                "/local/cadence") "dependencies"
              = tget [("dependencies", .table [("cadence", .str "1.0")])] "dependencies"
          ∧ tget3 (override_source [("dependencies", .table [("cadence", .str "1.0")])]
                "/local/cadence") "patch" "crates-io" "cadence"
              = some (.table [("path", .str "/local/cadence")])
          ∧ (∀ c ∈ ([⟨"/w/sub", "Cargo.toml"⟩] : List FPath), hasCadence fs3 c "2.0"))
    ∧ (∀ deps, ([⟨"/w/sub", "Cargo.toml"⟩] : List FPath) = []
        → tget [("dependencies", .table [("cadence", .str "1.0")])] "dependencies"
            = some (.table deps)
        → ∃ fs2, LocalOverride.patch ⟨⟨"/w", "Cargo.toml"⟩, [⟨"/w/sub", "Cargo.toml"⟩]⟩
            "2.0" "/local/cadence"
            ⟨[(⟨"/w", "Cargo.toml"⟩, .toml [("dependencies", .table [("cadence", .str "1.0")])]),
              (⟨"/w/sub", "Cargo.toml"⟩,
                .toml [("dependencies", .table [("cadence", .str "1.0")])])], []⟩ = .ok fs2
          ∧ hasCadence fs2 ⟨"/w", "Cargo.toml"⟩ "2.0"
          ∧ docKey fs2 ⟨"/w", "Cargo.toml"⟩ "patch" = some (.table [("crates-io", .table
              [("cadence", .table [("path", .str "/local/cadence")])])])) :=
  ⟨⟨rfl, by simp⟩,
   patch_spec ⟨"/w", "Cargo.toml"⟩ [⟨"/w/sub", "Cargo.toml"⟩] "2.0" "/local/cadence"
     ⟨[(⟨"/w", "Cargo.toml"⟩, .toml [("dependencies", .table [("cadence", .str "1.0")])]),
       (⟨"/w/sub", "Cargo.toml"⟩, .toml [("dependencies", .table [("cadence", .str "1.0")])])], []⟩
     [("dependencies", .table [("cadence", .str "1.0")])] rfl (by simp)⟩

/-- C6: with a non-empty child list, children are processed in sequence
order; when the child after the block `pre` fails to load, the whole
operation aborts with that child's error: every child of `pre` keeps its
already-written patched content (no rollback), and no other path — in
particular neither the root nor any later child — has been written. The
root is thus written only after every child write has succeeded. -/
theorem patch_child_failure_aborts (root cbad : FPath) (pre post : List FPath)
    (version lpath : String) (fs : DocFS) (rt : TomlTable)
    (hroot : docAt fs root = some (.toml rt))
    (hok : ∀ c ∈ pre, okChild fs c)
    (hbad : docAt fs cbad = none)
    (hcp : cbad ∉ pre) :
    ∃ fs2, LocalOverride.patch ⟨root, pre ++ cbad :: post⟩ version lpath fs =
        .err (.new_err ("unable to read TOML file " ++ fpath_repr cbad)
          (.ioError "No such file or directory")) fs2
      ∧ (∀ c ∈ pre, hasCadence fs2 c version)
      ∧ (∀ p, p ∉ pre → docAt fs2 p = docAt fs p) := by
  have hload : load_cargo_toml fs root = .ok (.table rt) := by
    have h3b : fget fs.files root = some (.toml rt) := hroot
    simp [load_cargo_toml, h3b]
  have hempty : (pre ++ cbad :: post).isEmpty = false := by
    cases pre with
    | nil => rfl
    | cons a l => rfl
  obtain ⟨fs2, heq, hbw, hpres, hcad⟩ :=
    patchChildren_split version pre (cbad :: post) fs hok
  have hbad2 : fget fs2.files cbad = none := by
    have := hpres cbad hcp
    rw [docAt] at this
    rw [this]
    exact hbad
  have hstep : patchChildren version (cbad :: post) fs2 =
      .err (.new_err ("unable to read TOML file " ++ fpath_repr cbad)
        (.ioError "No such file or directory")) fs2 := by
    simp [patchChildren, load_cargo_toml, hbad2, CraterError.new_err]
  refine ⟨fs2, ?_, hcad, hpres⟩
  simp [LocalOverride.patch, hload, as_table, hempty, heq, hstep]

/-- Witness for C6: one successfully patched child, then a missing child
manifest, then one further child; the root and the later child stay
untouched while the first child keeps its patched content. -/
theorem patch_child_failure_aborts_witness :
    (docAt ⟨[(⟨"/w", "Cargo.toml"⟩, .toml [("dependencies", .table [("cadence", .str "1.0")])]),
        (⟨"/w/a", "Cargo.toml"⟩, .toml [("dependencies", .table [("cadence", .str "1.0")])]),
        (⟨"/w/c", "Cargo.toml"⟩, .toml [("dependencies", .table [("cadence", .str "1.0")])])], []⟩
        ⟨"/w", "Cargo.toml"⟩
        = some (.toml [("dependencies", .table [("cadence", .str "1.0")])])
      ∧ (∀ c ∈ ([⟨"/w/a", "Cargo.toml"⟩] : List FPath),
          okChild ⟨[(⟨"/w", "Cargo.toml"⟩,
              .toml [("dependencies", .table [("cadence", .str "1.0")])]),
            (⟨"/w/a", "Cargo.toml"⟩, .toml [("dependencies", .table [("cadence", .str "1.0")])]),
            (⟨"/w/c", "Cargo.toml"⟩,
              .toml [("dependencies", .table [("cadence", .str "1.0")])])], []⟩ c)
      ∧ docAt ⟨[(⟨"/w", "Cargo.toml"⟩, .toml [("dependencies", .table [("cadence", .str "1.0")])]),
          (⟨"/w/a", "Cargo.toml"⟩, .toml [("dependencies", .table [("cadence", .str "1.0")])]),
          (⟨"/w/c", "Cargo.toml"⟩, .toml [("dependencies", .table [("cadence", .str "1.0")])])], []⟩
          ⟨"/w/b", "Cargo.toml"⟩ = none
      ∧ (⟨"/w/b", "Cargo.toml"⟩ : FPath) ∉ ([⟨"/w/a", "Cargo.toml"⟩] : List FPath))
    ∧ (∃ fs2, LocalOverride.patch
          ⟨⟨"/w", "Cargo.toml"⟩, [⟨"/w/a", "Cargo.toml"⟩] ++ ⟨"/w/b", "Cargo.toml"⟩ ::
            [⟨"/w/c", "Cargo.toml"⟩]⟩ "2.0" "/local/cadence"
          ⟨[(⟨"/w", "Cargo.toml"⟩, .toml [("dependencies", .table [("cadence", .str "1.0")])]),
            (⟨"/w/a", "Cargo.toml"⟩, .toml [("dependencies", .table [("cadence", .str "1.0")])]),
            (⟨"/w/c", "Cargo.toml"⟩, .toml [("dependencies", .table [("cadence", .str "1.0")])])], []⟩
        = .err (.new_err ("unable to read TOML file " ++ fpath_repr ⟨"/w/b", "Cargo.toml"⟩)
            (.ioError "No such file or directory")) fs2
        ∧ (∀ c ∈ ([⟨"/w/a", "Cargo.toml"⟩] : List FPath), hasCadence fs2 c "2.0")
        ∧ (∀ p, p ∉ ([⟨"/w/a", "Cargo.toml"⟩] : List FPath) →
            docAt fs2 p = docAt
              ⟨[(⟨"/w", "Cargo.toml"⟩, .toml [("dependencies", .table [("cadence", .str "1.0")])]),
                (⟨"/w/a", "Cargo.toml"⟩,
                  .toml [("dependencies", .table [("cadence", .str "1.0")])]),
                (⟨"/w/c", "Cargo.toml"⟩,
                  .toml [("dependencies", .table [("cadence", .str "1.0")])])], []⟩ p)) :=
  ⟨⟨rfl,
    by
      intro c hc
      simp only [List.mem_singleton] at hc
      subst hc
      exact ⟨⟨[("dependencies", .table [("cadence", .str "1.0")])],
        [("cadence", .str "1.0")], rfl, rfl⟩, by simp⟩,
    rfl, by simp⟩,
   patch_child_failure_aborts ⟨"/w", "Cargo.toml"⟩ ⟨"/w/b", "Cargo.toml"⟩
     [⟨"/w/a", "Cargo.toml"⟩] [⟨"/w/c", "Cargo.toml"⟩] "2.0" "/local/cadence"
     ⟨[(⟨"/w", "Cargo.toml"⟩, .toml [("dependencies", .table [("cadence", .str "1.0")])]),
       (⟨"/w/a", "Cargo.toml"⟩, .toml [("dependencies", .table [("cadence", .str "1.0")])]),
       (⟨"/w/c", "Cargo.toml"⟩, .toml [("dependencies", .table [("cadence", .str "1.0")])])], []⟩
     [("dependencies", .table [("cadence", .str "1.0")])] rfl
     (by
       intro c hc
       simp only [List.mem_singleton] at hc
       subst hc
       exact ⟨⟨[("dependencies", .table [("cadence", .str "1.0")])],
         [("cadence", .str "1.0")], rfl, rfl⟩, by simp⟩)
     rfl (by simp)⟩

/-- Byte-level filesystem: the text content of each existing file. -/
abbrev ByteFS := List (FPath × String)

/-- Look up a file's bytes. -/
def bget (fs : ByteFS) (p : FPath) : Option String :=
  match fs with
  | [] => none
  | (p2, s) :: rest => if p2 = p then some s else bget rest p

/-- Set a file's bytes (replace in place, or create). -/
def bset (fs : ByteFS) (p : FPath) (s : String) : ByteFS :=
  match fs with
  | [] => [(p, s)]
  | (p2, s2) :: rest => if p2 = p then (p2, s) :: rest else (p2, s2) :: bset rest p s

/-- Remove a file. -/
def bdel (fs : ByteFS) (p : FPath) : ByteFS :=
  match fs with
  | [] => []
  | (p2, s2) :: rest => if p2 = p then rest else (p2, s2) :: bdel rest p

theorem bget_bset_self (fs : ByteFS) (p : FPath) (s : String) :
    bget (bset fs p s) p = some s := by
  induction fs with
  | nil => simp [bset, bget]
  | cons hd rest ih =>
      obtain ⟨p2, s2⟩ := hd
      by_cases h : p2 = p <;> simp [bset, bget, h, ih]

theorem bget_bset_other (fs : ByteFS) (p q : FPath) (s : String)
    (h : q ≠ p) : bget (bset fs p s) q = bget fs q := by
  have h5 : p ≠ q := Ne.symm h
  induction fs with
  | nil => simp [bset, bget, h5]
  | cons hd rest ih =>
      obtain ⟨p2, s2⟩ := hd
      by_cases h3 : p2 = p
      · subst h3
        simp [bset, bget, h5]
      · by_cases h4 : p2 = q <;> simp [bset, bget, h3, h4, h, ih]

/-- toml.rs:172: the fixed reserved temp name, a sibling of the target. -/
def tmp_path (p : FPath) : FPath := ⟨p.dir, ".cadence-rename"⟩

/-- `OpenOptions::new().read(false).write(true).create(true).open(&tmp_path)`
(toml.rs:174-178): create the file empty when absent; when it already
exists, keep its bytes — these options do not truncate. -/
def open_create (fs : ByteFS) (p : FPath) : ByteFS :=
  match bget fs p with
  | some _ => fs
  | none => bset fs p ""

/-- `fd.write_all(contents.as_bytes())` (toml.rs:180) on a freshly opened,
non-truncated handle: the bytes overwrite the front of the file and any
bytes past the written length survive. -/
def write_at_start (old contents : String) : String :=
  contents ++ old.drop contents.length

/-- The filesystem after open + `write_all` + `flush` + `sync_all`
(toml.rs:174-184), before the rename. `flush` and `sync_all` do not change
visible content. -/
def after_write_steps (fs : ByteFS) (p : FPath) (contents : String) : ByteFS :=
  bset (open_create fs (tmp_path p)) (tmp_path p)
    (write_at_start ((bget (open_create fs (tmp_path p)) (tmp_path p)).getD "") contents)

/-- `fs::rename(tmp_path, &p)` (toml.rs:186): atomically move the temp file
onto the target. -/
def rename_file (fs : ByteFS) (src dst : FPath) : ByteFS :=
  match bget fs src with
  | some s => bset (bdel fs src) dst s
  | none => fs

/-- The whole `write_and_rename` closure of `write_cargo_toml`
(toml.rs:171-187) on a run where every step succeeds, applied to the
already-serialized text. -/
def write_and_rename (fs : ByteFS) (p : FPath) (contents : String) : ByteFS :=
  rename_file (after_write_steps fs p contents) (tmp_path p) p

/-- C4 fails on the code: when the fixed-name temp file `.cadence-rename`
already exists in the target's directory with longer content, the
`OpenOptions` (create without truncate) keep the stale tail, and the
renamed target ends up with the serialized text followed by leftover bytes
— not exactly the serialized text. Here the document serializes to `"new"`
while the stale temp file holds `"leftover-bytes"`; the target receives
`"newtover-bytes"`. -/
theorem write_and_rename_stale_temp_corrupts :
    bget (write_and_rename [(⟨"/w", ".cadence-rename"⟩, "leftover-bytes")]
        ⟨"/w", "Cargo.toml"⟩ "new")
      ⟨"/w", "Cargo.toml"⟩ = some "newtover-bytes"
    ∧ "newtover-bytes" ≠ "new" := by
  constructor
  · rfl
  · decide

/-- C5: every state the `write_and_rename` closure can be interrupted in
before the final rename — after opening the temp file, or after the
write/flush/sync steps — holds the target path's content unchanged; all
steps before the rename touch only the sibling temp file
`.cadence-rename`, so a target manifest (whose own name differs from the
reserved temp name) is byte-identical to its pre-operation content. -/
theorem target_untouched_before_rename (fs : ByteFS) (p : FPath)
    (contents : String) (h : p.file ≠ ".cadence-rename") :
    bget (open_create fs (tmp_path p)) p = bget fs p
    ∧ bget (after_write_steps fs p contents) p = bget fs p := by
  have hne : p ≠ tmp_path p := by
    intro h2
    exact h (congrArg FPath.file h2)
  have h1 : bget (open_create fs (tmp_path p)) p = bget fs p := by
    rw [open_create]
    match h2 : bget fs (tmp_path p) with
    | some s => rfl
    | none => exact bget_bset_other fs (tmp_path p) p "" hne
  refine ⟨h1, ?_⟩
  rw [after_write_steps, bget_bset_other _ _ _ _ hne]
  exact h1

/-- Witness for C5 at a concrete filesystem holding the target's old
content. -/
theorem target_untouched_before_rename_witness :
    (FPath.file ⟨"/w", "Cargo.toml"⟩ ≠ ".cadence-rename")
    ∧ (bget (open_create [(⟨"/w", "Cargo.toml"⟩, "old-manifest")]
          (tmp_path ⟨"/w", "Cargo.toml"⟩)) ⟨"/w", "Cargo.toml"⟩
        = bget [(⟨"/w", "Cargo.toml"⟩, "old-manifest")] ⟨"/w", "Cargo.toml"⟩
      ∧ bget (after_write_steps [(⟨"/w", "Cargo.toml"⟩, "old-manifest")]
          ⟨"/w", "Cargo.toml"⟩ "new-manifest") ⟨"/w", "Cargo.toml"⟩
        = bget [(⟨"/w", "Cargo.toml"⟩, "old-manifest")] ⟨"/w", "Cargo.toml"⟩) :=
  ⟨by decide,
   target_untouched_before_rename [(⟨"/w", "Cargo.toml"⟩, "old-manifest")]
     ⟨"/w", "Cargo.toml"⟩ "new-manifest" (by decide)⟩

/-- Split a character list at every occurrence of a separator. -/
def split_on_char (sep : Char) (cs : List Char) (acc : List Char) :
    List (List Char) :=
  match cs with
  | [] => [acc.reverse]
  | c :: rest =>
      if c = sep then acc.reverse :: split_on_char sep rest []
      else split_on_char sep rest (c :: acc)

/-- Split a string at every occurrence of a separator character. -/
def split_str (sep : Char) (s : String) : List String :=
  (split_on_char sep s.data []).map (fun cs => ⟨cs⟩)

/-- Rust `Path::file_name` on the URL string: the last non-empty,
non-`.` component, unless it is `..`. -/
def file_name (s : String) : Option String :=
  match ((split_str '/' s).filter (fun c => c != "" && c != ".")).getLast? with
  | none => none
  | some last => if last = ".." then none else some last

/-- The portion of a file name before its last dot; a name without a dot,
or with only a single leading dot, is kept whole. -/
def stem_of (n : String) : String :=
  match split_str '.' n with
  | [] => n
  | [_] => n
  | "" :: [_] => n
  | parts => String.intercalate "." parts.dropLast

/-- Rust `Path::file_stem` on the URL string. -/
def file_stem (s : String) : Option String :=
  (file_name s).map stem_of

/-- `RemoteRepo` (vcs.rs:17-19). -/
structure RemoteRepo where
  url : String

/-- `RemoteRepo::proj_name` (vcs.rs:49-61): the file stem of the URL, or a
message-only error when none can be derived. -/
def RemoteRepo.proj_name (r : RemoteRepo) : Except CraterError String :=
  match file_stem r.url with
  | some s => .ok s
  | none =>
      .error (.new ("unable to determine project name from \"" ++ r.url ++ "\""))

/-- The version-control system at the interface the program uses (`git2`):
which directories hold a repository, which exist non-empty without holding
a usable repository, and which clone attempts the remote would fail for
reasons other than an existing destination (network, authentication, ...).
-/
structure GitWorld where
  repos : List String
  blocked : List String
  clone_failure : String → String → Option String

/-- The outcome of `git2::Repository::clone`. -/
inductive CloneResult where
  | ok (w : GitWorld)
  | errAlreadyExists
  | errOther (msg : String)

/-- `git2::Repository::clone` at its interface: cloning into an existing
non-empty directory fails with the `Exists` code and changes nothing; an
external failure fails with another code; otherwise the destination becomes
a fresh checkout. -/
def git_clone (w : GitWorld) (url dest : String) : CloneResult :=
  if dest ∈ w.repos ∨ dest ∈ w.blocked then .errAlreadyExists
  else
    match w.clone_failure url dest with
    | some m => .errOther m
    | none => .ok { w with repos := dest :: w.repos }

/-- `git2::Repository::open` at its interface: succeeds exactly on a
directory holding a repository. -/
def git_open (w : GitWorld) (dest : String) : Bool := decide (dest ∈ w.repos)

/-- `RemoteRepo::download` (vcs.rs:26-47): join the destination directory
with the URL's file stem, clone there, fall back to opening the checkout in
place when the clone failed with the `Exists` code, and wrap any remaining
failure with a context message naming the URL and path plus its git cause.
Returns the checkout path together with the resulting VCS state. -/
def RemoteRepo.download (r : RemoteRepo) (w : GitWorld) (into : String) :
    Except CraterError (String × GitWorld) :=
  match r.proj_name with
  | .error e => .error e
  | .ok name =>
      match git_clone w r.url (into ++ "/" ++ name) with
      | .ok w2 => .ok (into ++ "/" ++ name, w2)
      | .errAlreadyExists =>
          if git_open w (into ++ "/" ++ name) then .ok (into ++ "/" ++ name, w)
          else
            .error (.new_err ("unable to clone or open repository " ++ r.url
              ++ " at \"" ++ into ++ "/" ++ name ++ "\"")
              (.gitError false "could not find repository"))
      | .errOther m =>
          .error (.new_err ("unable to clone or open repository " ++ r.url
            ++ " at \"" ++ into ++ "/" ++ name ++ "\"")
            (.gitError false m))

/-- C8: when the URL yields a file stem, a successful download returns the
destination joined with that stem, and calling download again in the
resulting state returns the same path without failing (the second clone
hits the `Exists` code and falls back to opening the checkout); opening in
place also happens for any state already holding the checkout, while a
clone failure with any other code is a hard error. -/
theorem download_idempotent (r : RemoteRepo) (w w1 : GitWorld)
    (into stem p1 : String)
    (hstem : file_stem r.url = some stem)
    (h1 : r.download w into = .ok (p1, w1)) :
    p1 = into ++ "/" ++ stem
    ∧ r.download w1 into = .ok (p1, w1)
    ∧ (∀ w0 : GitWorld, (into ++ "/" ++ stem) ∈ w0.repos →
        r.download w0 into = .ok (into ++ "/" ++ stem, w0))
    ∧ (∀ (w0 : GitWorld) (m : String),
        (into ++ "/" ++ stem) ∉ w0.repos → (into ++ "/" ++ stem) ∉ w0.blocked →
        w0.clone_failure r.url (into ++ "/" ++ stem) = some m →
        r.download w0 into = .error (.new_err ("unable to clone or open repository "
          ++ r.url ++ " at \"" ++ into ++ "/" ++ stem ++ "\"") (.gitError false m))) := by
  have hname : r.proj_name = .ok stem := by
    simp [RemoteRepo.proj_name, hstem]
  have hopen : ∀ w0 : GitWorld, (into ++ "/" ++ stem) ∈ w0.repos →
      r.download w0 into = .ok (into ++ "/" ++ stem, w0) := by
    intro w0 hmem
    have hclone : git_clone w0 r.url (into ++ "/" ++ stem) = .errAlreadyExists := by
      simp [git_clone, hmem]
    simp [RemoteRepo.download, hname, hclone, git_open, hmem]
  have hhard : ∀ (w0 : GitWorld) (m : String),
      (into ++ "/" ++ stem) ∉ w0.repos → (into ++ "/" ++ stem) ∉ w0.blocked →
      w0.clone_failure r.url (into ++ "/" ++ stem) = some m →
      r.download w0 into = .error (.new_err ("unable to clone or open repository "
        ++ r.url ++ " at \"" ++ into ++ "/" ++ stem ++ "\"") (.gitError false m)) := by
    intro w0 m hm1 hm2 hm3
    have hclone : git_clone w0 r.url (into ++ "/" ++ stem) = .errOther m := by
      simp [git_clone, hm1, hm2, hm3]
    simp [RemoteRepo.download, hname, hclone]
  have hkey : p1 = into ++ "/" ++ stem ∧ (into ++ "/" ++ stem) ∈ w1.repos := by
    simp only [RemoteRepo.download, hname] at h1
    by_cases hmem : (into ++ "/" ++ stem) ∈ w.repos ∨ (into ++ "/" ++ stem) ∈ w.blocked
    · rw [show git_clone w r.url (into ++ "/" ++ stem) = .errAlreadyExists by
        simp [git_clone, hmem]] at h1
      by_cases hop : (into ++ "/" ++ stem) ∈ w.repos
      · rw [show git_open w (into ++ "/" ++ stem) = true by
          simp [git_open, hop]] at h1
        simp only [if_true] at h1
        injection h1 with h2
        injection h2 with h3 h4
        exact ⟨h3.symm, by rw [← h4]; exact hop⟩
      · rw [show git_open w (into ++ "/" ++ stem) = false by
          simp [git_open, hop]] at h1
        simp at h1
    · match h5 : w.clone_failure r.url (into ++ "/" ++ stem) with
      | some m =>
          rw [show git_clone w r.url (into ++ "/" ++ stem) = .errOther m by
            simp [git_clone, hmem, h5]] at h1
          simp at h1
      | none =>
          rw [show git_clone w r.url (into ++ "/" ++ stem) =
              .ok { w with repos := (into ++ "/" ++ stem) :: w.repos } by
            simp [git_clone, hmem, h5]] at h1
          injection h1 with h2
          injection h2 with h3 h4
          refine ⟨h3.symm, ?_⟩
          rw [← h4]
          exact List.mem_cons_self _ _
  obtain ⟨hp, hmem1⟩ := hkey
  refine ⟨hp, ?_, hopen, hhard⟩
  rw [hp]
  exact hopen w1 hmem1

/-- Witness for C8: a fresh clone of `https://github.com/foo/bar.git` into
`/tmp/stage`, then the conclusions of idempotence at that input. -/
theorem download_idempotent_witness :
    (file_stem "https://github.com/foo/bar.git" = some "bar"
      ∧ RemoteRepo.download ⟨"https://github.com/foo/bar.git"⟩
          ⟨[], [], fun _ _ => none⟩ "/tmp/stage"
        = .ok ("/tmp/stage/bar", ⟨["/tmp/stage/bar"], [], fun _ _ => none⟩))
    ∧ ("/tmp/stage/bar" = "/tmp/stage" ++ "/" ++ "bar"
      ∧ RemoteRepo.download ⟨"https://github.com/foo/bar.git"⟩
          ⟨["/tmp/stage/bar"], [], fun _ _ => none⟩ "/tmp/stage"
        = .ok ("/tmp/stage/bar", ⟨["/tmp/stage/bar"], [], fun _ _ => none⟩)
      ∧ (∀ w0 : GitWorld, ("/tmp/stage" ++ "/" ++ "bar") ∈ w0.repos →
          RemoteRepo.download ⟨"https://github.com/foo/bar.git"⟩ w0 "/tmp/stage"
            = .ok ("/tmp/stage" ++ "/" ++ "bar", w0))
      ∧ (∀ (w0 : GitWorld) (m : String),
          ("/tmp/stage" ++ "/" ++ "bar") ∉ w0.repos →
          ("/tmp/stage" ++ "/" ++ "bar") ∉ w0.blocked →
          w0.clone_failure "https://github.com/foo/bar.git"
            ("/tmp/stage" ++ "/" ++ "bar") = some m →
          RemoteRepo.download ⟨"https://github.com/foo/bar.git"⟩ w0 "/tmp/stage"
            = .error (.new_err ("unable to clone or open repository "
              ++ "https://github.com/foo/bar.git" ++ " at \"" ++ "/tmp/stage" ++ "/"
              ++ "bar" ++ "\"") (.gitError false m)))) :=
  ⟨⟨rfl, rfl⟩,
   download_idempotent ⟨"https://github.com/foo/bar.git"⟩
     ⟨[], [], fun _ _ => none⟩ ⟨["/tmp/stage/bar"], [], fun _ _ => none⟩
     "/tmp/stage" "bar" "/tmp/stage/bar" rfl rfl⟩

/-- `LocalVersion` (toml.rs:23-25): the path to the local Cadence
Cargo.toml. -/
structure LocalVersion where
  cargo_toml : FPath

/-- The accessor chain of `LocalVersion::version` (toml.rs:55-61):
`as_table`, get `package`, `as_table`, get `version`, `as_str`. -/
def package_version (root : Value) : Option String :=
  match as_table root with
  | none => none
  | some t =>
      match tget t "package" with
      | none => none
      | some pv =>
          match as_table pv with
          | none => none
          | some pt =>
              match tget pt "version" with
              | none => none
              | some vv => as_str vv

/-- `LocalVersion::version` (toml.rs:42-68): load the manifest (wrapping a
load failure with context and the load error as cause), then extract
`package.version` (a missing field gives a message-only error). -/
def LocalVersion.version (lv : LocalVersion) (fs : DocFS) : Except CraterError String :=
  match load_cargo_toml fs lv.cargo_toml with
  | .error e =>
      .error (.new_err ("unable to open " ++ fpath_repr lv.cargo_toml
        ++ " to determine Cadence version") (.crater e))
  | .ok root =>
      match package_version root with
      | some s => .ok s
      | none =>
          .error (.new ("unable to determine Cadence version from "
            ++ fpath_repr lv.cargo_toml))

/-- The platform services `LocalVersion::path` relies on:
`Path::canonicalize` (which may fail with an I/O error) and `to_str` (which
fails on a non-UTF-8 canonical path). -/
structure PathEnv where
  canonicalize : String → Except Cause String
  utf8_ok : String → Bool

/-- `LocalVersion::path` (toml.rs:74-85): take the manifest's parent
directory, canonicalize it — discarding the failure via `.ok()` — and
render it as text; every failure collapses to the same message-only
`CraterError::new`, with no cause attached. -/
def LocalVersion.path (lv : LocalVersion) (env : PathEnv) : Except CraterError String :=
  match (env.canonicalize lv.cargo_toml.dir).toOption with
  | some p =>
      if env.utf8_ok p then .ok p
      else .error (.new ("unable to determine crate path to Cadence from "
        ++ fpath_repr lv.cargo_toml))
  | none =>
      .error (.new ("unable to determine crate path to Cadence from "
        ++ fpath_repr lv.cargo_toml))

/-- The error's context message names the given path or URL, and the error
chains an underlying cause retrievable through `source`. -/
def wraps_cause (e : CraterError) (loc : String) : Prop :=
  (∃ a b, e.msg = a ++ loc ++ b) ∧ e.source.isSome = true

/-- C9 counterexample: when `canonicalize` fails with an I/O error,
`LocalVersion::path` silently discards that error (`.canonicalize().ok()`)
and returns a message-only `CraterError::new` whose `source` is `none` —
the underlying cause is not retrievable, refuting "no underlying error is
silently discarded". -/
theorem path_error_has_no_cause :
    LocalVersion.path ⟨⟨"/work/cadence", "Cargo.toml"⟩⟩
        ⟨fun _ => .error (.ioError "Permission denied"), fun _ => true⟩
      = .error (.new ("unable to determine crate path to Cadence from "
          ++ fpath_repr ⟨"/work/cadence", "Cargo.toml"⟩))
    ∧ CraterError.source (.new ("unable to determine crate path to Cadence from "
        ++ fpath_repr ⟨"/work/cadence", "Cargo.toml"⟩)) = none := by
  exact ⟨rfl, rfl⟩

/-- C9 (amended): manifest read, parse, write and repository download
failures each return an error whose context message names the path or URL
involved and whose underlying cause is retrievable via `source`, and
`LocalVersion::version` chains a load failure as its cause; the exception
is `LocalVersion::path`, which discards the `canonicalize` failure through
`.ok()` and returns a message-only error with no cause. -/
theorem error_wrapping (fs : DocFS) (p : FPath) (t : TomlTable)
    (lv : LocalVersion) (e0 : CraterError) (r : RemoteRepo) (w : GitWorld)
    (into stem m : String) (env : PathEnv) (c0 : Cause) :
    (docAt fs p = none →
      ∃ e, load_cargo_toml fs p = .error e ∧ wraps_cause e (fpath_repr p))
    ∧ (docAt fs p = some .invalid →
      ∃ e, load_cargo_toml fs p = .error e ∧ wraps_cause e (fpath_repr p))
    ∧ (p ∈ fs.bad_w →
      ∃ e, write_cargo_toml fs p (.table t) = .error e ∧ wraps_cause e (fpath_repr p))
    ∧ (load_cargo_toml fs lv.cargo_toml = .error e0 →
      ∃ e, lv.version fs = .error e ∧ wraps_cause e (fpath_repr lv.cargo_toml)
        ∧ e.source = some (.crater e0))
    ∧ (file_stem r.url = some stem → (into ++ "/" ++ stem) ∉ w.repos →
      (into ++ "/" ++ stem) ∉ w.blocked →
      w.clone_failure r.url (into ++ "/" ++ stem) = some m →
      ∃ e, r.download w into = .error e ∧ wraps_cause e r.url)
    ∧ (env.canonicalize lv.cargo_toml.dir = .error c0 →
      ∃ e, lv.path env = .error e ∧ e.source = none) := by
  refine ⟨?_, ?_, ?_, ?_, ?_, ?_⟩
  · intro h
    have h2 : fget fs.files p = none := h
    refine ⟨.new_err ("unable to read TOML file " ++ fpath_repr p)
      (.ioError "No such file or directory"), by simp [load_cargo_toml, h2],
      ⟨"unable to read TOML file ", "", by
        simp [CraterError.new_err, CraterError.msg]⟩, rfl⟩
  · intro h
    have h2 : fget fs.files p = some .invalid := h
    refine ⟨.new_err ("unable to parse TOML file " ++ fpath_repr p)
      (.parseError "expected an equals, found an identifier"),
      by simp [load_cargo_toml, h2],
      ⟨"unable to parse TOML file ", "", by
        simp [CraterError.new_err, CraterError.msg]⟩, rfl⟩
  · intro h
    refine ⟨.new_err ("unable to write to TOML file " ++ fpath_repr p)
      (.ioError "Permission denied"), by simp [write_cargo_toml, h],
      ⟨"unable to write to TOML file ", "", by
        simp [CraterError.new_err, CraterError.msg]⟩, rfl⟩
  · intro h
    refine ⟨.new_err ("unable to open " ++ fpath_repr lv.cargo_toml
        ++ " to determine Cadence version") (.crater e0),
      by simp [LocalVersion.version, h],
      ⟨⟨"unable to open ", " to determine Cadence version", by
        simp [CraterError.new_err, CraterError.msg]⟩, rfl⟩, rfl⟩
  · intro hstem hm1 hm2 hm3
    have hname : r.proj_name = .ok stem := by simp [RemoteRepo.proj_name, hstem]
    have hclone : git_clone w r.url (into ++ "/" ++ stem) = .errOther m := by
      simp [git_clone, hm1, hm2, hm3]
    refine ⟨.new_err ("unable to clone or open repository " ++ r.url
        ++ " at \"" ++ into ++ "/" ++ stem ++ "\"") (.gitError false m),
      by simp [RemoteRepo.download, hname, hclone],
      ⟨"unable to clone or open repository ",
        " at \"" ++ into ++ "/" ++ stem ++ "\"", by
          simp [CraterError.new_err, CraterError.msg, String.append_assoc]⟩, rfl⟩
  · intro h
    refine ⟨.new ("unable to determine crate path to Cadence from "
        ++ fpath_repr lv.cargo_toml),
      by simp [LocalVersion.path, h, Except.toOption], rfl⟩

/-- Witness for C9 (amended): each conjunct discharged at a concrete
filesystem, manifest path, URL and environment. -/
theorem error_wrapping_witness :
    (∃ e, load_cargo_toml ⟨[], []⟩ ⟨"/w", "Cargo.toml"⟩ = .error e
      ∧ wraps_cause e (fpath_repr ⟨"/w", "Cargo.toml"⟩))
    ∧ (∃ e, load_cargo_toml ⟨[(⟨"/w", "Cargo.toml"⟩, .invalid)], []⟩ ⟨"/w", "Cargo.toml"⟩
        = .error e ∧ wraps_cause e (fpath_repr ⟨"/w", "Cargo.toml"⟩))
    ∧ (∃ e, write_cargo_toml ⟨[], [⟨"/w", "Cargo.toml"⟩]⟩ ⟨"/w", "Cargo.toml"⟩
        (.table []) = .error e ∧ wraps_cause e (fpath_repr ⟨"/w", "Cargo.toml"⟩))
    ∧ (∃ e, LocalVersion.version ⟨⟨"/w", "Cargo.toml"⟩⟩ ⟨[], []⟩ = .error e
      ∧ wraps_cause e (fpath_repr ⟨"/w", "Cargo.toml"⟩)
      ∧ e.source = some (.crater (.new_err
          ("unable to read TOML file " ++ fpath_repr ⟨"/w", "Cargo.toml"⟩)
          (.ioError "No such file or directory"))))
    ∧ (∃ e, RemoteRepo.download ⟨"https://github.com/foo/bar.git"⟩
        ⟨[], [], fun _ _ => some "network unreachable"⟩ "/tmp/stage" = .error e
      ∧ wraps_cause e "https://github.com/foo/bar.git")
    ∧ (∃ e, LocalVersion.path ⟨⟨"/w", "Cargo.toml"⟩⟩
        ⟨fun _ => .error (.ioError "Permission denied"), fun _ => true⟩ = .error e
      ∧ e.source = none) := by
  obtain ⟨w1, w2, w3, w4, w5, w6⟩ := error_wrapping ⟨[], []⟩ ⟨"/w", "Cargo.toml"⟩ []
    ⟨⟨"/w", "Cargo.toml"⟩⟩ (.new_err
      ("unable to read TOML file " ++ fpath_repr ⟨"/w", "Cargo.toml"⟩)
      (.ioError "No such file or directory"))
    ⟨"https://github.com/foo/bar.git"⟩ ⟨[], [], fun _ _ => some "network unreachable"⟩
    "/tmp/stage" "bar" "network unreachable"
    ⟨fun _ => .error (.ioError "Permission denied"), fun _ => true⟩
    (.ioError "Permission denied")
  refine ⟨w1 rfl, ?_, ?_, w4 rfl, w5 rfl (by simp) (by simp) rfl, w6 rfl⟩
  · obtain ⟨-, w2b, -, -, -, -⟩ := error_wrapping ⟨[(⟨"/w", "Cargo.toml"⟩, .invalid)], []⟩
      ⟨"/w", "Cargo.toml"⟩ [] ⟨⟨"/w", "Cargo.toml"⟩⟩ (.new "x")
      ⟨"u"⟩ ⟨[], [], fun _ _ => none⟩ "" "" ""
      ⟨fun _ => .error (.ioError ""), fun _ => true⟩ (.ioError "")
    exact w2b rfl
  · obtain ⟨-, -, w3b, -, -, -⟩ := error_wrapping ⟨[], [⟨"/w", "Cargo.toml"⟩]⟩
      ⟨"/w", "Cargo.toml"⟩ [] ⟨⟨"/w", "Cargo.toml"⟩⟩ (.new "x")
      ⟨"u"⟩ ⟨[], [], fun _ _ => none⟩ "" "" ""
      ⟨fun _ => .error (.ioError ""), fun _ => true⟩ (.ioError "")
    exact w3b (by simp)

end CadenceCrater
